import Mathlib

/-!
# Verification of the triton testing harness against its specification

Shallow embedding of the pure logic of `python/triton/testing.py` and the
generic helpers of `python/test/test_language.py`:

* `allclose` — the dtype-aware tolerance comparator (testing.py lines 59-73);
* `random` (integer branch) — the random device-array factory (lines 81-90);
* the statistics tail of `do_bench` (lines 144-148): `torch.quantile` with
  linear interpolation and `torch.median` (lower median) over the trial times;
* `patch_kernel` — textual template instantiation (test_language.py lines
  30-34), including a heap model for the `copy.deepcopy` / field-mutation
  behaviour;
* the neutral-element and exactness selection of `test_atomic_rmw`
  (test_language.py lines 259-299);
* the result-table construction of `Mark._run` (testing.py lines 224-237).

Numeric values are modelled as exact rationals `ℚ`; device execution, CUDA
events and true floating-point rounding are outside the model.  The inputs at
which theorems below evaluate the comparator keep all intermediate values far
from integer-overflow and division-by-zero corner cases, so the rational model
agrees with the torch semantics there.
-/

namespace Triton

/-- The torch dtypes handled by the harness (`cvt` table, test_language.py). -/
inductive DType where
  | bool | int8 | int16 | int32 | int64
  | bfloat16 | float16 | float32 | float64
deriving DecidableEq, Repr

/-- `dtype.is_floating_point` of torch. -/
def DType.is_floating_point : DType → Bool
  | .bfloat16 | .float16 | .float32 | .float64 => true
  | _ => false

/-- The signed-integer dtypes, `[torch.int8, torch.int16, torch.int32, torch.int64]`. -/
def DType.is_int : DType → Bool
  | .int8 | .int16 | .int32 | .int64 => true
  | _ => false

/-- A host view of a device array: dtype tag, shape, and the element values
read back in row-major order.  Booleans are encoded as the rationals 0/1. -/
structure Tensor where
  dtype : DType
  shape : List Nat
  data : List ℚ
deriving DecidableEq, Repr

/-- `torch.max` over all elements of a tensor (the largest element, signed —
not the largest magnitude).  torch raises on an empty tensor; the harness only
ever reduces non-empty arrays, so the `[]` case is inert junk. -/
def torchMaxAll : List ℚ → ℚ
  | [] => 0
  | a :: as => as.foldl max a

/-- `torch.sum(x ^ y)` for boolean tensors: the number of positions where the
two 0/1 streams disagree. -/
def xorSum (x y : List ℚ) : ℚ :=
  (List.zipWith (fun a b => if a = b then (0 : ℚ) else 1) x y).sum

/-- `triton.testing.allclose` (testing.py lines 59-73), translated line by
line.  A Python `raise RuntimeError` is an `Except.error`.  Note two features
of the source preserved here: the `tol = 0` assigned for integer dtypes is
immediately overwritten by the unconditional `tol = 1e-2` on line 71 (which
also discards the caller's `tol` argument), and the relative error is measured
against `max(torch.max(x), torch.max(y))` — the largest signed element, not
the largest magnitude. -/
def allclose (x y : Tensor) (tol : ℚ) : Except String Bool :=
  if x.dtype ≠ y.dtype then
    .error "dtype mismatch"
  else if x.shape ≠ y.shape then
    .error "shape mismatch"
  else if x.dtype = .bool then
    .ok (xorSum x.data y.data = 0)
  else
    -- `if x.dtype in [int8, int16, int32, int64]: tol = 0` — dead: see below
    let diff := List.zipWith (fun a b => |a - b|) x.data y.data
    let x_max := torchMaxAll x.data
    let y_max := torchMaxAll y.data
    let tol : ℚ := 1/100      -- `tol = 1e-2`, overwriting the parameter
    let err := torchMaxAll diff / max x_max y_max
    .ok (err ≤ tol)

/-- The floating-point acceptance rule as the specification words it: the
maximum absolute element-wise difference, divided by the pairwise maximum
magnitude of the two arrays, must be at most the caller's tolerance.  Written
from the spec, for comparison against `allclose` above. -/
def allclose_float_spec (x y : Tensor) (tol : ℚ) : Bool :=
  let diff := List.zipWith (fun a b => |a - b|) x.data y.data
  let mag := max (torchMaxAll (x.data.map (fun a => |a|)))
                 (torchMaxAll (y.data.map (fun a => |a|)))
  torchMaxAll diff / mag ≤ tol

/-- One scanning pass of Python `str.replace` for a non-empty pattern
`o :: os`: scan left to right; wherever the pattern is a prefix of the
remaining text, emit the replacement and skip past the matched characters,
otherwise keep one character and continue.  `fuel` bounds the recursion
depth; every step consumes at least one character, so with `fuel ≥ s.length`
(the only way it is invoked below) it never runs out. -/
def replaceCore (o : Char) (os new : List Char) : Nat → List Char → List Char
  | 0, s => s
  | _ + 1, [] => []
  | fuel + 1, c :: rest =>
    if List.isPrefixOf (o :: os) (c :: rest) then
      new ++ replaceCore o os new fuel (rest.drop os.length)
    else
      c :: replaceCore o os new fuel rest

/-- Python `str.replace(old, new)`: every non-overlapping occurrence of `old`
is replaced by `new`, scanning from the left.  For the empty pattern Python
inserts `new` before every character and once at the end. -/
def pyReplace (s old new : String) : String :=
  match old.data with
  | [] => ⟨new.data ++ s.data.foldr (fun c acc => c :: (new.data ++ acc)) []⟩
  | o :: os => ⟨replaceCore o os new.data s.data.length s.data⟩

/-- `patch_kernel` (test_language.py lines 30-34), acting on the copied
kernel's source string: each key of the substitution map is replaced by its
value, one key at a time, in the map's iteration order. -/
def patch_kernel (src : String) (to_replace : List (String × String)) : String :=
  to_replace.foldl (fun s kv => pyReplace s kv.1 kv.2) src

/-- `pat` occurs as a contiguous substring of `s`. -/
def occursIn (pat : List Char) : List Char → Bool
  | [] => List.isPrefixOf pat []
  | c :: rest => List.isPrefixOf pat (c :: rest) || occursIn pat rest

/-- Modelled from the spec: the instantiation behaviour claim C3 ascribes to
`patch_kernel` — "fails with a `TemplateError` if a key is not found in the
source".  The source contains no such check (and no `TemplateError` class);
this definition exists only to state the claimed behaviour for comparison. -/
def patch_kernel_claimed (src : String) (to_replace : List (String × String)) :
    Except String String :=
  to_replace.foldlM
    (fun s kv =>
      if occursIn kv.1.data s.data then .ok (pyReplace s kv.1 kv.2)
      else .error "TemplateError")
    src

/-- A heap of Python kernel objects: the address of an object is its index,
its contents the `src` string (the only field `patch_kernel` touches). -/
structure PyHeap where
  objs : List String
deriving Repr

/-- Read the `src` field of the object at address `a`. -/
def heap_read (h : PyHeap) (a : Nat) : String :=
  h.objs.getD a ""

/-- Overwrite the `src` field of the object at address `a`. -/
def heap_write (h : PyHeap) (a : Nat) (s : String) : PyHeap :=
  ⟨h.objs.set a s⟩

/-- Allocate a fresh object with source `s`; returns the new heap and the
fresh address. -/
def heap_alloc (h : PyHeap) (s : String) : PyHeap × Nat :=
  (⟨h.objs ++ [s]⟩, h.objs.length)

/-- `patch_kernel` at the level of Python object identity:
`kernel = copy.deepcopy(template)` allocates an independent copy, then the
loop mutates `kernel.src` in place, and `kernel` is returned.  The template
object itself is never written. -/
def patch_kernel_heap (h : PyHeap) (template : Nat)
    (to_replace : List (String × String)) : PyHeap × Nat :=
  let alloc := heap_alloc h (heap_read h template)
  let kernel := alloc.2
  let h2 := to_replace.foldl
    (fun hh kv => heap_write hh kernel (pyReplace (heap_read hh kernel) kv.1 kv.2))
    alloc.1
  (h2, kernel)

/-- The atomic operations exercised by `test_atomic_rmw`. -/
inductive AtomicOp where
  | add | max | min
deriving DecidableEq, Repr

/-- A value used to seed the output cell before launch: a finite integer, or
one of the two floating infinities. -/
inductive Seed where
  | ninf | pinf
  | val (z : ℤ)
deriving DecidableEq, Repr

/-- `torch.iinfo(dtype).min` — defined for the signed-integer dtypes only;
torch raises for the others, hence `Option`. -/
def iinfo_min : DType → Option ℤ
  | .int8 => some (-(2 ^ 7))
  | .int16 => some (-(2 ^ 15))
  | .int32 => some (-(2 ^ 31))
  | .int64 => some (-(2 ^ 63))
  | _ => none

/-- `torch.iinfo(dtype).max` — signed-integer dtypes only. -/
def iinfo_max : DType → Option ℤ
  | .int8 => some (2 ^ 7 - 1)
  | .int16 => some (2 ^ 15 - 1)
  | .int32 => some (2 ^ 31 - 1)
  | .int64 => some (2 ^ 63 - 1)
  | _ => none

/-- test_language.py line 272: `max_neutral = float('-inf') if
dtype_x.is_floating_point else torch.iinfo(dtype_x).min`. -/
def max_neutral (d : DType) : Option Seed :=
  if d.is_floating_point then some .ninf else (iinfo_min d).map .val

/-- test_language.py line 273: `min_neutral = float('inf') if
dtype_x.is_floating_point else torch.iinfo(dtype_x).max`. -/
def min_neutral (d : DType) : Option Seed :=
  if d.is_floating_point then some .pinf else (iinfo_max d).map .val

/-- test_language.py line 274: `neutral = {'add': 0, 'max': max_neutral,
'min': min_neutral}[op]` — the value `z_tri.fill_(neutral)` seeds the output
cell with. -/
def neutral : AtomicOp → DType → Option Seed
  | .add, _ => some (.val 0)
  | .max, d => max_neutral d
  | .min, d => min_neutral d

/-- test_language.py line 295: `exact = op not in ['add']`.  When true the
result is checked with `z_ref.item() == z_tri.item()` (exact equality);
otherwise through `assert_allclose` (the floating tolerance rule). -/
def rmw_exact (op : AtomicOp) : Bool :=
  decide (op ∉ [AtomicOp.add])

/-- What the user benchmark function may return to `Mark._run`: a bare
scalar, or a `(mean, min, max)` triple. -/
inductive BenchRet (α : Type) where
  | scalar (v : α)
  | triple (mean mn mx : α)
deriving DecidableEq, Repr

/-- The unpacking in `Mark._run` (testing.py lines 230-233): `try: y_mean,
y_min, y_max = ret` succeeds on a triple and preserves it; a bare scalar is
not iterable, raises `TypeError`, and is expanded to `(ret, None, None)`. -/
def unpack_ret {α : Type} : BenchRet α → α × Option α × Option α
  | .scalar v => (v, none, none)
  | .triple mean mn mx => (mean, some mn, some mx)

/-- One row of the result table: the x value, then one mean per line value,
then one min and one max per line value (`df.loc[len(df)] = [x] + row_mean +
row_min + row_max`, testing.py line 237). -/
structure BenchRow (X α : Type) where
  x : X
  row_mean : List α
  row_min : List (Option α)
  row_max : List (Option α)
deriving DecidableEq, Repr

/-- The result table accumulated by `Mark._run` (testing.py lines 225-237):
one row per value of the x axis; within a row the user function is invoked
once per line value and its result unpacked into the three column groups. -/
def mark_run_table {X Y α : Type} (fn : X → Y → BenchRet α)
    (x_vals : List X) (line_vals : List Y) : List (BenchRow X α) :=
  x_vals.map (fun x =>
    let rets := line_vals.map (fun y => unpack_ret (fn x y))
    { x := x
      row_mean := rets.map (fun r => r.1)
      row_min := rets.map (fun r => r.2.1)
      row_max := rets.map (fun r => r.2.2) })

/-- `torch.randint(low, high, shape)` draws uniformly from `[low, high)`.
The random stream is abstracted as an arbitrary source `g` of naturals;
element `i` of the result is `low + g i % (high - low)`, which is exactly
the range contract of `randint`. -/
def randint (low high : ℤ) (g : Nat → Nat) (i : Nat) : ℤ :=
  low + (g i : ℤ) % (high - low)

/-- Element `i` of `triton.testing.random(shape, dtype)` for the
signed-integer dtypes: the factory executes `torch.randint(1, 32, shape)`
(testing.py line 87) for every dtype in `[int8, int16, int32, int64]`; the
value range does not depend on which integer dtype was requested. -/
def random_int_elem (g : Nat → Nat) (i : Nat) : ℤ :=
  randint 1 32 g i

/-- Host evaluation of the `/` operator of `_test_binary`'s reference
expression, guarded against a zero divisor. -/
def host_div (a b : ℤ) : Option ℚ :=
  if b = 0 then none else some ((a : ℚ) / (b : ℚ))

/-- Host evaluation of the `%` operator of `_test_binary`'s reference
expression, guarded against a zero divisor. -/
def host_mod (a b : ℤ) : Option ℤ :=
  if b = 0 then none else some (a % b)

/-- The trial times in ascending order (the order statistics both
`torch.median` and `torch.quantile` are defined from). -/
def sortQ (l : List ℚ) : List ℚ :=
  l.insertionSort (· ≤ ·)

/-- Floor of a non-negative rational, as a natural number. -/
def qfloor (q : ℚ) : ℕ :=
  ⌊q⌋.toNat

/-- `torch.median` of a one-dimensional tensor: the middle element of the
sorted data; for an even number of elements torch documents — and returns —
the lower of the two middle values.  In all cases this is the element at
index `(n - 1) / 2` (integer division) of the sorted data. -/
def torchMedian (l : List ℚ) : ℚ :=
  (sortQ l).getD ((l.length - 1) / 2) 0

/-- Linear interpolation into a sorted list at a fractional position `pos`:
the value between the element at `⌊pos⌋` and its right neighbour (clamped to
the last index), at fraction `pos - ⌊pos⌋`. -/
def interp (s : List ℚ) (pos : ℚ) : ℚ :=
  s.getD (qfloor pos) 0 +
    (pos - (qfloor pos : ℚ)) *
      (s.getD (min (qfloor pos + 1) (s.length - 1)) 0 - s.getD (qfloor pos) 0)

/-- `torch.quantile(l, q)` with the default linear interpolation: the virtual
position in the sorted data is `q * (n - 1)`. -/
def torchQuantile (l : List ℚ) (q : ℚ) : ℚ :=
  interp (sortQ l) (q * ((l.length : ℚ) - 1))

/-- The statistics tail of `do_bench` (testing.py lines 145-148): from the
per-trial elapsed times, `torch.quantile(times, percentiles)` and
`torch.median(times)`, returned as `tuple([med_ms] + percentiles)` — here a
pair of the median and the quantile list.  The measurement loop itself
(CUDA events, cache-eviction buffer, warm-up) is device-side and outside the
model; `times` is its output. -/
def do_bench (times : List ℚ) (percentiles : List ℚ) : ℚ × List ℚ :=
  (torchMedian times, percentiles.map (torchQuantile times))

/-! ## Theorems -/

/-- C1: the spec demands that integer arrays compare with zero tolerance, so
any element-wise disagreement must be rejected.  The code violates this: for
the int32 arrays `x = [100]` and `y = [101]` the elements differ, yet
`allclose` accepts, because the `tol = 0` set for integer dtypes is
overwritten by the unconditional `tol = 1e-2` on the next lines
(relative error `1/101 ≤ 1/100`). -/
theorem c1_int_exactness_violated :
    allclose ⟨.int32, [1], [100]⟩ ⟨.int32, [1], [101]⟩ (1/100) = .ok true ∧
      ([(100 : ℚ)] ≠ [(101 : ℚ)]) := by
  constructor
  · norm_num [allclose, torchMaxAll]
    decide
  · decide

/-- C2: the spec demands that floating arrays be accepted exactly when the
maximum relative error against the pairwise maximum magnitude is at most the
tolerance.  The code violates this at `x = [-2.0]`, `y = [-1.0]` (float32,
default tolerance 1e-2): the spec formula gives relative error `1/2 > 1/100`
and rejects, but the code divides by the signed maximum `max(max x, max y)
= -1`, obtaining `1 / -1 = -1 ≤ 1/100`, and accepts. -/
theorem c2_float_relative_error_violated :
    allclose ⟨.float32, [1], [-2]⟩ ⟨.float32, [1], [-1]⟩ (1/100) = .ok true ∧
      allclose_float_spec ⟨.float32, [1], [-2]⟩ ⟨.float32, [1], [-1]⟩ (1/100) = false := by
  constructor
  · norm_num [allclose, torchMaxAll]
    decide
  · norm_num [allclose_float_spec, torchMaxAll]

/-- C5: whenever the two tensors disagree in dtype or in shape, `allclose`
raises (returns an error), and no numeric tolerance verdict is produced. -/
theorem c5_allclose_mismatch_raises (x y : Tensor) (tol : ℚ)
    (h : x.dtype ≠ y.dtype ∨ x.shape ≠ y.shape) :
    ∃ msg, allclose x y tol = .error msg := by
  unfold allclose
  rcases h with h | h
  · exact ⟨"dtype mismatch", by simp [h]⟩
  · by_cases hd : x.dtype = y.dtype
    · exact ⟨"shape mismatch", by simp [hd, h]⟩
    · exact ⟨"dtype mismatch", by simp [hd]⟩

/-- Witness for C5 at a concrete input: a float32 versus int32 comparison
errors out. -/
theorem c5_allclose_mismatch_raises_witness :
    ∃ msg, allclose ⟨.float32, [1], [1]⟩ ⟨.int32, [1], [1]⟩ (1/100) = .error msg :=
  c5_allclose_mismatch_raises ⟨.float32, [1], [1]⟩ ⟨.int32, [1], [1]⟩ (1/100)
    (Or.inl (by decide))

/-- The empty pattern occurs in every string. -/
theorem occursIn_nil (l : List Char) : occursIn [] l = true := by
  cases l <;> simp [occursIn, List.isPrefixOf]

/-- If a non-empty pattern occurs nowhere in `s`, the replacement scan leaves
`s` unchanged (for any amount of fuel). -/
theorem replaceCore_not_occurs (o : Char) (os new : List Char) :
    ∀ (fuel : Nat) (s : List Char), occursIn (o :: os) s = false →
      replaceCore o os new fuel s = s := by
  intro fuel
  induction fuel with
  | zero => intro s _; rfl
  | succ n ih =>
    intro s hocc
    cases s with
    | nil => rfl
    | cons c rest =>
      unfold occursIn at hocc
      rw [Bool.or_eq_false_iff] at hocc
      simp only [replaceCore, hocc.1, if_false, Bool.false_eq_true]
      rw [ih rest hocc.2]

/-- Python `str.replace` with a pattern that occurs nowhere in the string
returns the string unchanged. -/
theorem pyReplace_not_occurs (s k v : String)
    (hocc : occursIn k.data s.data = false) : pyReplace s k v = s := by
  unfold pyReplace
  cases hk : k.data with
  | nil => rw [hk] at hocc; rw [occursIn_nil] at hocc; cases hocc
  | cons o os =>
    rw [hk] at hocc
    simp only
    rw [replaceCore_not_occurs o os v.data s.data.length s.data hocc]

/-- C3 counterexample: the claim says `patch_kernel` fails with a
`TemplateError` when a key is missing from the source.  On the concrete
template `"abc"` with substitution `{"X" ↦ "y"}` the claimed behaviour
(modelled by `patch_kernel_claimed`) errors, but the code returns normally
with the source unchanged — `str.replace` silently replaces zero
occurrences, and no `TemplateError` exists anywhere in the repository. -/
theorem c3_missing_key_counterexample :
    patch_kernel_claimed "abc" [("X", "y")] = .error "TemplateError" ∧
      patch_kernel "abc" [("X", "y")] = "abc" :=
  ⟨rfl, by decide⟩

/-- C3 amended: a key that does not occur in the template source is ignored
silently — `patch_kernel` returns the source unchanged and raises nothing. -/
theorem c3_missing_key_silent (src k v : String)
    (hocc : occursIn k.data src.data = false) :
    patch_kernel src [(k, v)] = src := by
  unfold patch_kernel
  simp only [List.foldl]
  exact pyReplace_not_occurs src k v hocc

/-- Witness for the amended C3 at the concrete template `"abc"` and the
absent key `"X"`. -/
theorem c3_missing_key_silent_witness :
    occursIn "X".data "abc".data = false ∧ patch_kernel "abc" [("X", "y")] = "abc" :=
  ⟨by decide, c3_missing_key_silent "abc" "X" "y" (by decide)⟩

/-- C4 counterexample: the result of `patch_kernel` is not independent of the
iteration order of the substitution map.  With template `"A"` and map
`{A ↦ B, B ↦ C}`, processing `A` first yields `"C"` (the fragment `B`
inserted for `A` is rewritten by the later key `B`), while processing `B`
first yields `"B"` — so the claimed simultaneous/atomic semantics fails. -/
theorem c4_not_atomic_counterexample :
    patch_kernel "A" [("A", "B"), ("B", "C")] = "C" ∧
      patch_kernel "A" [("B", "C"), ("A", "B")] = "B" ∧
      patch_kernel "A" [("A", "B"), ("B", "C")] ≠
        patch_kernel "A" [("B", "C"), ("A", "B")] := by
  refine ⟨by decide, by decide, by decide⟩

/-- C4 amended: `patch_kernel` applies the substitutions sequentially, one
key at a time, in the iteration order of the map; a replacement fragment
that contains a key processed later is itself rewritten by that later key,
so the result depends on the iteration order.  The two concrete evaluations
exhibit the cascade (`A ↦ B ↦ C`) and the order dependence. -/
theorem c4_sequential_replacement :
    (∀ (src : String) (k v : String) (rest : List (String × String)),
        patch_kernel src ((k, v) :: rest) = patch_kernel (pyReplace src k v) rest) ∧
      patch_kernel "A" [("A", "B"), ("B", "C")] = "C" ∧
      patch_kernel "A" [("B", "C"), ("A", "B")] = "B" :=
  ⟨fun _ _ _ _ => rfl, by decide, by decide⟩

/-- Writing at one address leaves every other address unchanged. -/
theorem heap_read_write_ne (h : PyHeap) (a b : Nat) (s : String) (hab : a ≠ b) :
    heap_read (heap_write h a s) b = heap_read h b := by
  unfold heap_read heap_write
  rw [List.getD_eq_getD_get?, List.getD_eq_getD_get?]
  simp only [List.get?_eq_getElem?]
  rw [List.getElem?_set_ne hab]

/-- A fold that only ever writes to address `k` preserves reads at `t ≠ k`. -/
theorem heap_read_foldl_write_ne (k t : Nat) (hkt : k ≠ t)
    (m : List (String × String)) :
    ∀ hh : PyHeap,
      heap_read
        (m.foldl (fun hh kv =>
          heap_write hh k (pyReplace (heap_read hh k) kv.1 kv.2)) hh) t =
        heap_read hh t := by
  induction m with
  | nil => intro hh; rfl
  | cons kv rest ih =>
    intro hh
    simp only [List.foldl]
    rw [ih, heap_read_write_ne _ _ _ _ hkt]

/-- C9: `patch_kernel` does not mutate the template object.  In the heap
model, instantiating from the template at address `t` leaves the object at
`t` with its original source, and the returned kernel is a distinct object. -/
theorem c9_template_not_mutated (h : PyHeap) (t : Nat)
    (m : List (String × String)) (ht : t < h.objs.length) :
    heap_read (patch_kernel_heap h t m).1 t = heap_read h t ∧
      (patch_kernel_heap h t m).2 ≠ t := by
  constructor
  · unfold patch_kernel_heap
    simp only [heap_alloc]
    rw [heap_read_foldl_write_ne h.objs.length t (Nat.ne_of_gt ht)]
    unfold heap_read
    exact List.getD_append _ _ _ _ ht
  · exact Nat.ne_of_gt ht

/-- Witness for C9: one template object holding `"A"`, substitution
`{A ↦ B}`; after instantiation the template still reads `"A"`. -/
theorem c9_template_not_mutated_witness :
    heap_read (patch_kernel_heap ⟨["A"]⟩ 0 [("A", "B")]).1 0 = heap_read ⟨["A"]⟩ 0 ∧
      (patch_kernel_heap ⟨["A"]⟩ 0 [("A", "B")]).2 ≠ 0 :=
  c9_template_not_mutated ⟨["A"]⟩ 0 [("A", "B")] (by decide)

/-- C6: in `test_atomic_rmw` the output cell is seeded with the operator's
neutral element — 0 for `add` whatever the dtype; for `max`, `-inf` on the
floating dtypes and the dtype's minimum representable on int32; for `min`,
`+inf` on the floating dtypes and the maximum representable on int32 — and
`max`/`min` results are compared by exact equality while `add` goes through
the tolerance comparison (`exact = op not in ['add']`).  The enumerated
dtypes are exactly those of the test's parameter matrix. -/
theorem c6_atomic_neutral_and_exactness :
    (∀ d : DType, neutral .add d = some (.val 0)) ∧
      neutral .max .int32 = some (.val (-(2 ^ 31))) ∧
      iinfo_min .int32 = some (-(2 ^ 31)) ∧
      neutral .max .float32 = some .ninf ∧
      neutral .min .int32 = some (.val (2 ^ 31 - 1)) ∧
      iinfo_max .int32 = some (2 ^ 31 - 1) ∧
      neutral .min .float32 = some .pinf ∧
      neutral .add .float16 = some (.val 0) ∧
      rmw_exact .max = true ∧ rmw_exact .min = true ∧ rmw_exact .add = false :=
  ⟨fun _ => rfl, by decide, by decide, by decide, by decide, by decide,
    by decide, by decide, by decide, by decide, by decide⟩

/-- C7: the result table built by `Mark._run` has exactly one row per x-axis
value and, in every row, exactly one mean, one min and one max entry per
line value; a bare scalar return is expanded to `(value, None, None)` and a
triple return is preserved unchanged. -/
theorem c7_result_table_shape {X Y α : Type} (fn : X → Y → BenchRet α)
    (x_vals : List X) (line_vals : List Y) :
    (mark_run_table fn x_vals line_vals).length = x_vals.length ∧
      (∀ row ∈ mark_run_table fn x_vals line_vals,
        row.row_mean.length = line_vals.length ∧
        row.row_min.length = line_vals.length ∧
        row.row_max.length = line_vals.length) ∧
      (∀ v : α, unpack_ret (.scalar v) = (v, none, none)) ∧
      (∀ mean mn mx : α, unpack_ret (.triple mean mn mx) = (mean, some mn, some mx)) := by
  refine ⟨by simp [mark_run_table], ?_, fun _ => rfl, fun _ _ _ => rfl⟩
  intro row hrow
  simp only [mark_run_table, List.mem_map] at hrow
  obtain ⟨x, -, rfl⟩ := hrow
  simp

/-- Witness for C7: two x values, one line value, a scalar-returning user
function; the table has two rows and the row `⟨1, [5], [none], [none]⟩` has
one entry in each column group. -/
theorem c7_result_table_shape_witness :
    (mark_run_table (fun _ _ => BenchRet.scalar (5 : ℕ)) [1, 2] [(7 : ℕ)]).length = 2 ∧
      ((⟨1, [5], [none], [none]⟩ : BenchRow ℕ ℕ).row_mean.length = 1 ∧
        (⟨1, [5], [none], [none]⟩ : BenchRow ℕ ℕ).row_min.length = 1 ∧
        (⟨1, [5], [none], [none]⟩ : BenchRow ℕ ℕ).row_max.length = 1) :=
  ⟨(c7_result_table_shape (fun _ _ => BenchRet.scalar 5) [1, 2] [7]).1,
    (c7_result_table_shape (fun _ _ => BenchRet.scalar 5) [1, 2] [7]).2.1
      ⟨1, [5], [none], [none]⟩ (by decide)⟩

/-- C10: every element the random factory produces for an integer dtype lies
in `[1, 31]`; in particular it is never zero, so the host-side `/` and `%`
of the binary-operator test always see a non-zero divisor. -/
theorem c10_random_int_never_zero (g : Nat → Nat) (i : Nat) :
    1 ≤ random_int_elem g i ∧ random_int_elem g i ≤ 31 ∧
      random_int_elem g i ≠ 0 ∧
      (∀ x : ℤ, (host_div x (random_int_elem g i)).isSome ∧
        (host_mod x (random_int_elem g i)).isSome) := by
  have h0 : (0 : ℤ) ≤ (g i : ℤ) % 31 := Int.emod_nonneg _ (by norm_num)
  have h1 : (g i : ℤ) % 31 < 31 := Int.emod_lt_of_pos _ (by norm_num)
  have hval : random_int_elem g i = 1 + (g i : ℤ) % 31 := by
    unfold random_int_elem randint
    norm_num
  have hlo : 1 ≤ random_int_elem g i := by rw [hval]; omega
  have hhi : random_int_elem g i ≤ 31 := by rw [hval]; omega
  have hne : random_int_elem g i ≠ 0 := by omega
  refine ⟨hlo, hhi, hne, fun x => ⟨?_, ?_⟩⟩
  · unfold host_div
    rw [if_neg hne]
    rfl
  · unfold host_mod
    rw [if_neg hne]
    rfl

/-- `qfloor` of a non-negative rational sits below it. -/
theorem qfloor_le (q : ℚ) (hq : 0 ≤ q) : (qfloor q : ℚ) ≤ q := by
  unfold qfloor
  have h0 : (0 : ℤ) ≤ ⌊q⌋ := Int.floor_nonneg.mpr hq
  have h1 : ((⌊q⌋.toNat : ℕ) : ℚ) = ((⌊q⌋ : ℤ) : ℚ) := by
    rw [← Int.toNat_of_nonneg h0]
    push_cast
    rfl
  rw [h1]
  exact_mod_cast Int.floor_le q

/-- A non-negative rational sits below `qfloor` plus one. -/
theorem lt_qfloor_add_one (q : ℚ) (hq : 0 ≤ q) : q < (qfloor q : ℚ) + 1 := by
  unfold qfloor
  have h0 : (0 : ℤ) ≤ ⌊q⌋ := Int.floor_nonneg.mpr hq
  have h1 : ((⌊q⌋.toNat : ℕ) : ℚ) = ((⌊q⌋ : ℤ) : ℚ) := by
    rw [← Int.toNat_of_nonneg h0]
    push_cast
    rfl
  rw [h1]
  exact_mod_cast Int.lt_floor_add_one q

/-- `qfloor` is monotone. -/
theorem qfloor_mono {a b : ℚ} (hab : a ≤ b) : qfloor a ≤ qfloor b := by
  unfold qfloor
  exact Int.toNat_le_toNat (Int.floor_mono hab)

/-- `qfloor` of a natural number is itself. -/
theorem qfloor_natCast (m : ℕ) : qfloor (m : ℚ) = m := by
  unfold qfloor
  rw [Int.floor_natCast]
  exact Int.toNat_natCast m

/-- Positions bounded by the last index have `qfloor` inside the list. -/
theorem qfloor_lt_length {n : ℕ} (hn : 1 ≤ n) {pos : ℚ} (h0 : 0 ≤ pos)
    (h1 : pos ≤ (n : ℚ) - 1) : qfloor pos < n := by
  have h2 : (qfloor pos : ℚ) ≤ ((n - 1 : ℕ) : ℚ) := by
    rw [Nat.cast_sub hn]
    exact le_trans (qfloor_le pos h0) h1
  have h3 : qfloor pos ≤ n - 1 := by exact_mod_cast h2
  omega

/-- In a sorted list, the element at a smaller index is at most the element
at a larger (in-bounds) index. -/
theorem sorted_getD_mono {s : List ℚ} (hs : List.Sorted (· ≤ ·) s) {i j : ℕ}
    (hij : i ≤ j) (hj : j < s.length) : s.getD i 0 ≤ s.getD j 0 := by
  have hi : i < s.length := lt_of_le_of_lt hij hj
  rw [List.getD_eq_getElem _ _ hi, List.getD_eq_getElem _ _ hj]
  have h := hs.rel_get_of_le (a := ⟨i, hi⟩) (b := ⟨j, hj⟩) hij
  simpa using h

/-- The interpolated value lies between the two neighbouring sorted
elements. -/
theorem interp_bounds {s : List ℚ} (hs : List.Sorted (· ≤ ·) s)
    (hn : 1 ≤ s.length) {pos : ℚ} (h0 : 0 ≤ pos)
    (h1 : pos ≤ (s.length : ℚ) - 1) :
    s.getD (qfloor pos) 0 ≤ interp s pos ∧
      interp s pos ≤ s.getD (min (qfloor pos + 1) (s.length - 1)) 0 := by
  have hi_lt : qfloor pos < s.length := qfloor_lt_length hn h0 h1
  have hmin_lt : min (qfloor pos + 1) (s.length - 1) < s.length := by omega
  have hlo_hi : s.getD (qfloor pos) 0 ≤
      s.getD (min (qfloor pos + 1) (s.length - 1)) 0 :=
    sorted_getD_mono hs (by omega) hmin_lt
  have hfrac0 : 0 ≤ pos - (qfloor pos : ℚ) := by
    have := qfloor_le pos h0
    linarith
  have hfrac1 : pos - (qfloor pos : ℚ) ≤ 1 := by
    have := lt_qfloor_add_one pos h0
    linarith
  unfold interp
  constructor
  · nlinarith [mul_nonneg hfrac0 (sub_nonneg.mpr hlo_hi)]
  · nlinarith [mul_nonneg (by linarith : (0 : ℚ) ≤ 1 - (pos - (qfloor pos : ℚ)))
      (sub_nonneg.mpr hlo_hi)]

/-- Linear interpolation into a sorted list is monotone in the position. -/
theorem interp_mono {s : List ℚ} (hs : List.Sorted (· ≤ ·) s)
    (hn : 1 ≤ s.length) {a b : ℚ} (h0 : 0 ≤ a) (hab : a ≤ b)
    (h1 : b ≤ (s.length : ℚ) - 1) : interp s a ≤ interp s b := by
  have hb0 : 0 ≤ b := le_trans h0 hab
  have ha1 : a ≤ (s.length : ℚ) - 1 := le_trans hab h1
  have hia_ib : qfloor a ≤ qfloor b := qfloor_mono hab
  rcases Nat.eq_or_lt_of_le hia_ib with heq | hlt
  · have hi_lt : qfloor a < s.length := qfloor_lt_length hn h0 ha1
    have hmin_lt : min (qfloor a + 1) (s.length - 1) < s.length := by omega
    have hlo_hi : s.getD (qfloor a) 0 ≤
        s.getD (min (qfloor a + 1) (s.length - 1)) 0 :=
      sorted_getD_mono hs (by omega) hmin_lt
    unfold interp
    rw [← heq]
    nlinarith [mul_le_mul_of_nonneg_right (by linarith : a - (qfloor a : ℚ) ≤ b - (qfloor a : ℚ))
      (sub_nonneg.mpr hlo_hi)]
  · have hib_lt : qfloor b < s.length := qfloor_lt_length hn hb0 h1
    have hub := (interp_bounds hs hn h0 ha1).2
    have hlb := (interp_bounds hs hn hb0 h1).1
    have hmid : s.getD (min (qfloor a + 1) (s.length - 1)) 0 ≤
        s.getD (qfloor b) 0 :=
      sorted_getD_mono hs (by omega) hib_lt
    linarith

/-- For an odd number of trials the lower median is exactly the `q = 1/2`
quantile. -/
theorem torchMedian_eq_quantile_half {l : List ℚ} (hodd : l.length % 2 = 1) :
    torchMedian l = torchQuantile l (1/2) := by
  obtain ⟨k, hk⟩ : ∃ k, l.length = 2 * k + 1 := ⟨(l.length - 1) / 2, by omega⟩
  have hidx : (l.length - 1) / 2 = k := by omega
  have hpos : (1/2 : ℚ) * ((l.length : ℚ) - 1) = (k : ℚ) := by
    rw [hk]
    push_cast
    ring
  unfold torchMedian torchQuantile interp
  rw [hpos, qfloor_natCast, hidx]
  ring

/-- `torch.quantile` is monotone in the requested percentile. -/
theorem torchQuantile_mono {times : List ℚ} (hn : 1 ≤ times.length)
    {p q : ℚ} (h0 : 0 ≤ p) (hpq : p ≤ q) (h1 : q ≤ 1) :
    torchQuantile times p ≤ torchQuantile times q := by
  have hs : List.Sorted (· ≤ ·) (sortQ times) :=
    List.sorted_insertionSort _ _
  have hlen : (sortQ times).length = times.length :=
    List.length_insertionSort _ _
  have hn1 : (0 : ℚ) ≤ (times.length : ℚ) - 1 := by
    have : (1 : ℚ) ≤ (times.length : ℚ) := by exact_mod_cast hn
    linarith
  unfold torchQuantile
  apply interp_mono hs (by omega)
  · exact mul_nonneg h0 hn1
  · exact mul_le_mul_of_nonneg_right hpq hn1
  · rw [hlen]
    nlinarith

/-- C8 counterexample: the claim asserts `first_percentile ≤ median ≤
last_percentile` for every non-empty sample and every ascending percentile
list.  With the two trial times `[0, 10]` and the default percentiles
`[0.2, 0.8]`, `torch.median` returns the lower median `0` while the 0.2
quantile interpolates to `2`, so the first returned percentile exceeds the
median. -/
theorem c8_percentile_median_counterexample :
    (do_bench [0, 10] [2/10, 8/10]).1 <
        (do_bench [0, 10] [2/10, 8/10]).2.headD 0 ∧
      ¬ ((do_bench [0, 10] [2/10, 8/10]).2.headD 0 ≤
          (do_bench [0, 10] [2/10, 8/10]).1) := by
  constructor <;>
    norm_num [do_bench, torchMedian, torchQuantile, interp, sortQ, qfloor,
      List.insertionSort, List.orderedInsert]

/-- C8 amended: for an odd number of trials (so that the lower median is the
exact `1/2` quantile) and a percentile list whose first element is at most
`1/2` and whose last element is at least `1/2` (all within `[0, 1]`), the
values returned by `do_bench` satisfy
`first_percentile ≤ median ≤ last_percentile`. -/
theorem c8_percentile_median_ordering (times ps : List ℚ) (p₁ pₖ : ℚ)
    (hodd : times.length % 2 = 1) (hhead : ps.head? = some p₁)
    (hlast : ps.getLast? = some pₖ) (hp0 : 0 ≤ p₁) (hp1 : p₁ ≤ 1/2)
    (hp2 : 1/2 ≤ pₖ) (hp3 : pₖ ≤ 1) :
    (do_bench times ps).2.headD 0 ≤ (do_bench times ps).1 ∧
      (do_bench times ps).1 ≤ (do_bench times ps).2.getLastD 0 := by
  have hn : 1 ≤ times.length := by omega
  have hhead' : (ps.map (torchQuantile times)).headD 0 = torchQuantile times p₁ := by
    cases ps with
    | nil => simp at hhead
    | cons a t =>
      simp only [List.head?_cons, Option.some.injEq] at hhead
      rw [hhead]
      rfl
  have hlast' : (ps.map (torchQuantile times)).getLastD 0 = torchQuantile times pₖ := by
    rw [List.getLastD_eq_getLast?, List.getLast?_map, hlast]
    rfl
  have hmed : torchMedian times = torchQuantile times (1/2) :=
    torchMedian_eq_quantile_half hodd
  constructor
  · show (ps.map (torchQuantile times)).headD 0 ≤ torchMedian times
    rw [hhead', hmed]
    exact torchQuantile_mono hn hp0 hp1 (by norm_num)
  · show torchMedian times ≤ (ps.map (torchQuantile times)).getLastD 0
    rw [hlast', hmed]
    exact torchQuantile_mono hn (by norm_num) hp2 hp3

/-- Witness for the amended C8: three trial times `[3, 1, 2]` and the
ascending percentiles `[1/4, 3/4]`; the 0.25 quantile `1.5` is below the
median `2`, which is below the 0.75 quantile `2.5`. -/
theorem c8_percentile_median_ordering_witness :
    (do_bench [3, 1, 2] [1/4, 3/4]).2.headD 0 ≤ (do_bench [3, 1, 2] [1/4, 3/4]).1 ∧
      (do_bench [3, 1, 2] [1/4, 3/4]).1 ≤ (do_bench [3, 1, 2] [1/4, 3/4]).2.getLastD 0 :=
  c8_percentile_median_ordering [3, 1, 2] [1/4, 3/4] (1/4) (3/4)
    (by norm_num) rfl rfl (by norm_num) (by norm_num) (by norm_num) (by norm_num)

end Triton
